import Mathlib

/-!
Shallow embedding of `src/search.py`: a TF-IDF search engine consisting of a
token normalizer (`clean`), a per-file term-frequency table (`Document`), and a
directory-level inverted index with IDF-weighted ranked retrieval
(`SearchEngine`).

Modelling choices:
* Python strings are lists of code points (`Str := List Nat`); the normalizer
  and tokenizer are modelled on the ASCII fragment of Python's Unicode-aware
  `str.lower`, `re`'s word-character class and `str.split`.
* Python floats are modelled as exact rationals (`ℚ`).
* Python dicts are insertion-ordered association lists with the usual
  first-key-wins lookup; all operations below keep keys distinct, as dicts do.
* Fallible operations (`float` division by zero, `math.log` on a non-positive
  argument, and everything built from them) return `Except PyError`.
* The directory listing (`os.listdir`) is I/O glue; it enters the embedding as
  an explicit list of (file name, file contents) pairs.
-/

deriving instance DecidableEq for Except

namespace SearchPy

/-- A Python string, as a list of code points. -/
abbrev Str := List Nat

/-- The runtime errors reachable in this program: `ZeroDivisionError` from
float division, and `ValueError: math domain error` from `math.log`. -/
inductive PyError where
  | zeroDivisionError
  | mathDomainError
deriving DecidableEq

/-- Python division as used in `search.py` (`float / int` and `int / int`):
raises `ZeroDivisionError` when the denominator is zero. -/
def pyDiv (a b : ℚ) : Except PyError ℚ :=
  if b = 0 then .error .zeroDivisionError else .ok (a / b)

/-- Python `math.log`: raises `ValueError: math domain error` on any argument
`≤ 0`. On a positive argument CPython returns the real natural logarithm; that
value is irrational in general and lies outside the rational value model, so it
is represented by `0` here. No theorem in this file depends on that choice:
in this program `self.files` is always empty (the `files.add(file)` call on
line 106 of `search.py` sits inside a trailing comment), so every reachable
call of `math.log` receives the argument `0` and takes the error branch. -/
def mathLog (x : ℚ) : Except PyError ℚ :=
  if x ≤ 0 then .error .mathDomainError else .ok 0

/-- `str.lower` on one code point (ASCII fragment). -/
def pyLower (c : Nat) : Nat :=
  if 65 ≤ c ∧ c ≤ 90 then c + 32 else c

/-- Membership in the regex word-character class `\w` = `[a-zA-Z0-9_]`
(ASCII fragment): digits, letters, underscore. -/
def isWordChar (c : Nat) : Bool :=
  decide ((48 ≤ c ∧ c ≤ 57) ∨ (65 ≤ c ∧ c ≤ 90) ∨ (97 ≤ c ∧ c ≤ 122) ∨ c = 95)

/-- `clean` (search.py line 6): lowercase the token, then delete every
character matching `\W+`, i.e. keep exactly the word characters. -/
def clean (s : Str) : Str :=
  (s.map pyLower).filter isWordChar

/-- Python whitespace for `str.split()` (ASCII fragment): space, tab, LF, VT,
FF, CR. -/
def isSpace (c : Nat) : Bool :=
  decide (c = 32 ∨ (9 ≤ c ∧ c ≤ 13))

/-- Helper for `pySplit`: `acc` holds the reversed current token. -/
def splitAux : Str → Str → List Str
  | [], acc => if acc = [] then [] else [acc.reverse]
  | c :: rest, acc =>
    if isSpace c then
      if acc = [] then splitAux rest [] else acc.reverse :: splitAux rest []
    else
      splitAux rest (c :: acc)

/-- Python `str.split()` with no arguments: split on runs of whitespace,
producing no empty tokens. -/
def pySplit (s : Str) : List Str :=
  splitAux s []

/-- Python `key in dict`. -/
def dictContains {α : Type} : List (Str × α) → Str → Bool
  | [], _ => false
  | p :: rest, k => if p.1 = k then true else dictContains rest k

/-- Python `dict[key]` with a default for the absent case (the code below only
reads keys it has checked are present, matching `dict.get(key, default)`). -/
def dictGetD {α : Type} : List (Str × α) → Str → α → α
  | [], _, dflt => dflt
  | p :: rest, k, dflt => if p.1 = k then p.2 else dictGetD rest k dflt

/-- Python `dict[key] = value`: replace in place if the key is present
(keeping its insertion position), otherwise append at the end. -/
def dictSet {α : Type} : List (Str × α) → Str → α → List (Str × α)
  | [], k, v => [(k, v)]
  | p :: rest, k, v => if p.1 = k then (k, v) :: rest else p :: dictSet rest k v

/-- A `Document` (search.py line 12): the file's path and its term-frequency
table. -/
structure Document where
  filename : Str
  frequency : List (Str × ℚ)
deriving DecidableEq

/-- One iteration of the counting loop in `Document.__init__` (search.py
lines 24-28). In the source, BOTH `frequency[word] = float(0)` and
`frequency[word] += float(1)` sit inside the `if word not in frequency`
block, so the net effect on an absent key is to insert it with value 1, and
occurrences of a word after its first leave the table unchanged. -/
def countStep (freq : List (Str × ℚ)) (word : Str) : List (Str × ℚ) :=
  let w := clean word
  if dictContains freq w = true then
    freq
  else
    let f0 := dictSet freq w 0
    dictSet f0 w (dictGetD f0 w 0 + 1)

/-- The counting loop of `Document.__init__` over all raw tokens. -/
def countLoop (tokens : List Str) : List (Str × ℚ) :=
  tokens.foldl countStep []

/-- One iteration of the normalizing loop in `Document.__init__` (search.py
lines 29-30): `frequency[unique_word] = frequency[unique_word] / len(tokens)`.
Float division by `len(tokens) = 0` raises `ZeroDivisionError`. -/
def divideStep (n : ℚ) (freq : List (Str × ℚ)) (u : Str) :
    Except PyError (List (Str × ℚ)) := do
  let q ← pyDiv (dictGetD freq u 0) n
  pure (dictSet freq u q)

/-- The normalizing loop of `Document.__init__`: iterate over the snapshot of
the table's keys, dividing each entry by the raw token count. -/
def divideLoop (freq : List (Str × ℚ)) (n : ℚ) :
    Except PyError (List (Str × ℚ)) :=
  (freq.map Prod.fst).foldlM (divideStep n) freq

/-- `Document.__init__` (search.py lines 13-33), with the file contents passed
in place of the `open`/`read` I/O: split the contents into raw tokens, run the
counting loop, then divide every entry by the raw token count. -/
def docInit (filename content : Str) : Except PyError Document := do
  let tokens := pySplit content
  let freq := countLoop tokens
  let freq2 ← divideLoop freq (tokens.length : ℚ)
  pure ⟨filename, freq2⟩

/-- `Document.term_frequency` (search.py line 35): normalize the queried term,
return its stored frequency, or `float(0)` if absent. -/
def Document.term_frequency (d : Document) (term : Str) : ℚ :=
  let t := clean term
  if dictContains d.frequency t = true then dictGetD d.frequency t 0 else 0

/-- `Document.get_path` (search.py line 48). -/
def Document.get_path (d : Document) : Str :=
  d.filename

/-- The key list of the term-frequency table; the dict operations keep keys
distinct, so this list enumerates the document's words. Python iterates
`set(...)` in an unspecified order; all properties proved below are
order-independent, and the key list stands in for that iteration. -/
def Document.wordsList (d : Document) : List Str :=
  d.frequency.map Prod.fst

/-- `Document.get_words` (search.py line 54): the set of the document's unique
normalized words. -/
def Document.get_words (d : Document) : Finset Str :=
  d.wordsList.toFinset

/-- A `SearchEngine` (search.py line 93): the inverted index (term → posting
list of Documents), the `files` set, and the source directory path. -/
structure SearchEngine where
  inverted_index : List (Str × List Document)
  files : List Document
  path : Str
deriving DecidableEq

/-- `os.path.join(path, filename)` for a plain directory path. -/
def osJoin (p name : Str) : Str :=
  p ++ [47] ++ name

/-- Python `str.endswith(extension)`. -/
def endsWith (s suffix : Str) : Bool :=
  List.isSuffixOf suffix s

/-- One iteration of the inner loop of `SearchEngine.__init__` (search.py
lines 107-110): ensure the word has a posting list, then append the document
to it. -/
def addWordStep (doc : Document) (idx : List (Str × List Document))
    (word : Str) : List (Str × List Document) :=
  let idx1 := if dictContains idx word = true then idx else idx ++ [(word, [])]
  dictSet idx1 word (dictGetD idx1 word [] ++ [doc])

/-- Register all of one document's words in the inverted index. -/
def addWords (idx : List (Str × List Document)) (doc : Document) :
    List (Str × List Document) :=
  doc.wordsList.foldl (addWordStep doc) idx

/-- One iteration of the outer loop of `SearchEngine.__init__` (search.py
lines 104-110): skip entries not ending in the extension, otherwise load the
entry as a Document and register its words. Note the `files.add(file)` call on
line 106 is part of a trailing comment in the source, so nothing is ever added
to `files`. -/
def buildStep (path ext : Str) (idx : List (Str × List Document))
    (entry : Str × Str) : Except PyError (List (Str × List Document)) :=
  if endsWith entry.1 ext = true then do
    let doc ← docInit (osJoin path entry.1) entry.2
    pure (addWords idx doc)
  else
    pure idx

/-- `SearchEngine.__init__` (search.py lines 94-113), with the directory
listing passed as an explicit list of (file name, contents) pairs: fold the
entries into an inverted index; `files` is initialized to the empty set and
never grown (see `buildStep`). -/
def buildEngine (path ext : Str) (entries : List (Str × Str)) :
    Except PyError SearchEngine := do
  let idx ← entries.foldlM (buildStep path ext) []
  pure ⟨idx, [], path⟩

/-- `SearchEngine._calculate_idf` (search.py line 115): if the term is a key
of the inverted index, return `math.log(len(self.files) /
len(self.inverted_index[term]))`; otherwise return `0`. -/
def SearchEngine.calculate_idf (e : SearchEngine) (term : Str) :
    Except PyError ℚ :=
  if dictContains e.inverted_index term = true then do
    let q ← pyDiv ((e.files.length : ℚ))
      (((dictGetD e.inverted_index term []).length : ℚ))
    mathLog q
  else
    .ok 0

/-- One iteration of the inner loop of `SearchEngine.search` (search.py lines
138-142): compute `tf_idf = file.term_frequency(term) * self._calculate_idf(term)`,
then store it under `file.get_path()`. The source first runs
`if file not in output: output[file.get_path()] = float(0)`; the keys of
`output` are path strings while `file` is a Document, so that membership test
never succeeds and the initialization to 0 always runs, immediately followed
by the overwriting assignment — both are kept here. -/
def postingStep (e : SearchEngine) (term : Str) (output : List (Str × ℚ))
    (file : Document) : Except PyError (List (Str × ℚ)) := do
  let i ← e.calculate_idf term
  let tfIdf := file.term_frequency term * i
  let output1 := dictSet output file.get_path 0
  pure (dictSet output1 file.get_path tfIdf)

/-- One iteration of the outer loop of `SearchEngine.search` (search.py lines
135-142): normalize the raw query token; if it is a key of the inverted index,
fold over its posting list, otherwise leave the accumulator unchanged. -/
def searchBody (e : SearchEngine) (output : List (Str × ℚ)) (word : Str) :
    Except PyError (List (Str × ℚ)) :=
  let term := clean word
  if dictContains e.inverted_index term = true then
    (dictGetD e.inverted_index term []).foldlM (postingStep e term) output
  else
    pure output

/-- Stable insertion of a path into a list sorted by strictly descending key:
the new element goes after every element whose key is ≥ its own, so elements
with equal keys keep their relative order. -/
def insertByDesc (key : Str → ℚ) (x : Str) : List Str → List Str
  | [] => [x]
  | y :: ys => if key y < key x then x :: y :: ys else y :: insertByDesc key x ys

/-- `sorted(output.keys(), key=lambda x: output[x], reverse=True)` (search.py
line 145): a stable descending sort of the accumulator's keys by their stored
scores (CPython's sorted is stable; this stable insertion sort computes the
same list). -/
def sortByValueDesc (output : List (Str × ℚ)) : List Str :=
  (output.map Prod.fst).foldl
    (fun acc k => insertByDesc (fun p => dictGetD output p 0) k acc) []

/-- `SearchEngine.search` (search.py lines 126-146): split the raw query on
whitespace, accumulate per-path scores over all query words, then return the
paths sorted by descending score. -/
def SearchEngine.search (e : SearchEngine) (query : Str) :
    Except PyError (List Str) := do
  let words := pySplit query
  let output ← words.foldlM (searchBody e) []
  pure (sortByValueDesc output)

/-- The list of Documents constructed while `SearchEngine.__init__` scans the
directory. The engine does not retain them in any attribute (the `files.add`
call is commented out), so this mirrors the construction loop to give them a
name: the same entries are filtered by extension and loaded by `docInit` in
the same order. -/
def loadStep (path ext : Str) (docs : List Document) (entry : Str × Str) :
    Except PyError (List Document) :=
  if endsWith entry.1 ext = true then do
    let doc ← docInit (osJoin path entry.1) entry.2
    pure (docs ++ [doc])
  else
    pure docs

/-- All Documents loaded by `SearchEngine.__init__` over the given directory
listing, in load order. -/
def loadedDocs (path ext : Str) (entries : List (Str × Str)) :
    Except PyError (List Document) :=
  entries.foldlM (loadStep path ext) []

/-- The union of `get_words` over a list of Documents. -/
def wordsUnion (docs : List Document) : Finset Str :=
  docs.foldl (fun s d => s ∪ d.get_words) ∅

/-- Every posting list reachable through a key of the inverted index is
nonempty. -/
def postingsNonempty (idx : List (Str × List Document)) : Prop :=
  ∀ t, dictContains idx t = true → dictGetD idx t [] ≠ []

/-! ## Theorems -/

/-- One `str.lower` pass leaves an already-lowered code point unchanged. -/
theorem pyLower_idem (c : Nat) : pyLower (pyLower c) = pyLower c := by
  unfold pyLower
  split_ifs <;> omega

/-- Every code point surviving `clean` is a word character fixed by
`pyLower`. -/
theorem mem_clean_fixed {x : Nat} {s : Str} (hx : x ∈ clean s) :
    isWordChar x = true ∧ pyLower x = x := by
  unfold clean at hx
  have h1 : isWordChar x = true := List.of_mem_filter hx
  have h2 : x ∈ s.map pyLower := List.mem_of_mem_filter hx
  rcases List.mem_map.mp h2 with ⟨c, _, rfl⟩
  exact ⟨h1, pyLower_idem c⟩

/-- Mapping a function that fixes every element of a list is the identity. -/
theorem map_fixed_eq_self {f : Nat → Nat} :
    ∀ (l : List Nat), (∀ a ∈ l, f a = a) → l.map f = l
  | [], _ => rfl
  | x :: xs, h => by
    rw [List.map_cons, h x (List.mem_cons_self x xs),
      map_fixed_eq_self xs (fun a ha => h a (List.mem_cons_of_mem x ha))]

/-- C5: the normalizer is idempotent: for every string `t`,
`clean (clean t) = clean t`. -/
theorem c5_clean_idempotent (s : Str) : clean (clean s) = clean s := by
  show ((clean s).map pyLower).filter isWordChar = clean s
  rw [map_fixed_eq_self (clean s) (fun a ha => (mem_clean_fixed ha).2)]
  exact List.filter_eq_self.mpr (fun a ha => (mem_clean_fixed ha).1)

/-- C7: `term_frequency` of a term absent from the document (after
normalizing the queried term) is exactly `0`, and `_calculate_idf` of a term
absent from the inverted index is exactly `.ok 0`; neither lookup produces an
error for unknown terms. -/
theorem c7_unknown_terms_yield_zero :
    (∀ (d : Document) (term : Str),
        dictContains d.frequency (clean term) = false →
        d.term_frequency term = 0) ∧
    (∀ (e : SearchEngine) (term : Str),
        dictContains e.inverted_index term = false →
        e.calculate_idf term = .ok 0) := by
  constructor
  · intro d term h
    unfold Document.term_frequency
    simp [h]
  · intro e term h
    unfold SearchEngine.calculate_idf
    simp [h]

/-- Witness for C7: the term "a" is absent from a document whose only word is
"b", and from an engine whose index has only the key "b". -/
theorem c7_witness :
    Document.term_frequency ⟨[102], [([98], 1)]⟩ [97] = 0 ∧
    SearchEngine.calculate_idf ⟨[([98], [])], [], []⟩ [97] = .ok 0 :=
  ⟨c7_unknown_terms_yield_zero.1 ⟨[102], [([98], 1)]⟩ [97] (by decide),
   c7_unknown_terms_yield_zero.2 ⟨[([98], [])], [], []⟩ [97] (by decide)⟩

/-- C9: a file whose contents split into zero whitespace-delimited tokens
loads into a Document with an empty term-frequency table, with no
division-by-zero error (the result is `.ok`, not `.error`), and that Document
has no words and matches no query term. -/
theorem c9_zero_token_document (name content : Str)
    (h : pySplit content = []) :
    docInit name content = .ok ⟨name, []⟩ ∧
    Document.get_words ⟨name, []⟩ = ∅ ∧
    ∀ term, Document.term_frequency ⟨name, []⟩ term = 0 := by
  refine ⟨?_, rfl, fun term => rfl⟩
  unfold docInit
  rw [h]
  rfl

/-- Witness for C9: whitespace-only file contents (space, tab, space). -/
theorem c9_witness :
    docInit [110] [32, 9, 32] = .ok ⟨[110], []⟩ ∧
    Document.get_words ⟨[110], []⟩ = ∅ ∧
    Document.term_frequency ⟨[110], []⟩ [97] = 0 := by
  have h := c9_zero_token_document [110] [32, 9, 32] (by decide)
  exact ⟨h.1, h.2.1, h.2.2 [97]⟩

/-- C1 (evidence for a code bug): for a file with contents "a a b" the raw
token "a" appears 2 times among 3 raw tokens, so the claimed stored frequency
is 2/3; the code stores 1/3, because in `Document.__init__` the increment
`frequency[word] += float(1)` sits inside the `if word not in frequency`
block, counting each distinct normalized word exactly once. This contradicts
the constructor's own docstring ("the number of times a word appears divided
by the total number of words"). -/
theorem c1_term_frequency_counts_each_word_once :
    (docInit [102] [97, 32, 97, 32, 98]).map
        (fun d => d.term_frequency [97]) = .ok (1 / 3) ∧
    ((1 : ℚ) / 3) ≠ 2 / 3 := by
  constructor
  · norm_num [docInit, pySplit, splitAux, countLoop, countStep, clean, pyLower,
      isWordChar, isSpace, dictContains, dictGetD, dictSet, divideLoop,
      divideStep, pyDiv, Document.term_frequency, Except.map, Bind.bind,
      Except.bind, Pure.pure, Except.pure]
  · norm_num

/-- C4 (evidence for a code bug): for the same file "a a b" with N = 3 raw
tokens, the claim says the stored frequencies times N sum to N = 3; the code's
table is {a ↦ 1/3, b ↦ 1/3}, whose values sum to 2/3, so the sum times N is 2,
the number of distinct normalized terms rather than the token count. -/
theorem c4_frequencies_do_not_partition :
    (docInit [103] [97, 32, 97, 32, 98]).map
        (fun d => (d.frequency.map Prod.snd).sum * 3) = .ok 2 ∧
    (2 : ℚ) ≠ 3 := by
  constructor
  · norm_num [docInit, pySplit, splitAux, countLoop, countStep, clean, pyLower,
      isWordChar, isSpace, dictContains, dictGetD, dictSet, divideLoop,
      divideStep, pyDiv, Except.map, Bind.bind, Except.bind, Pure.pure,
      Except.pure]
  · norm_num

/-- C2 (evidence for a code bug): over a 2-document corpus (file "a" with
contents "w", file "b" with contents "x") the term "w" is present in the
inverted index with a 1-document posting list, so the claim says
`_calculate_idf("w") = ln(2/1)`; the code instead raises
`ValueError: math domain error`, because `self.files` is always empty (the
`files.add(file)` call sits in a comment), making the argument of `math.log`
equal to `0/1 = 0`. This contradicts the repository's own
`test_calculate_idf`. -/
theorem c2_idf_of_present_term_raises :
    (buildEngine [] [] [([97], [119]), ([98], [120])]).bind
        (fun e => e.calculate_idf [119]) = .error .mathDomainError := by
  norm_num [buildEngine, buildStep, endsWith, osJoin, docInit, pySplit,
    splitAux, countLoop, countStep, clean, pyLower, isWordChar, isSpace,
    dictContains, dictGetD, dictSet, divideLoop, divideStep, pyDiv, mathLog,
    addWords, addWordStep, Document.wordsList, SearchEngine.calculate_idf,
    List.isSuffixOf, List.isPrefixOf, Except.map, Bind.bind, Except.bind,
    Pure.pure, Except.pure]

/-- C3 (evidence for a code bug): over a corpus with one file "a" whose
contents are "c d", the query "d c" has two distinct terms matching that
document, so the claim says `search` returns the document's path ranked by
the last matching term's score; the code instead raises
`ValueError: math domain error` at the first matched term, because computing
`tf_idf` calls `_calculate_idf`, which evaluates `math.log(0)` (`self.files`
is always empty). No score is ever recorded. This contradicts the
repository's own `test_search`. -/
theorem c3_search_raises_on_multiterm_match :
    (buildEngine [] [] [([97], [99, 32, 100])]).bind
        (fun e => e.search [100, 32, 99]) = .error .mathDomainError := by
  norm_num [buildEngine, buildStep, endsWith, osJoin, docInit, pySplit,
    splitAux, countLoop, countStep, clean, pyLower, isWordChar, isSpace,
    dictContains, dictGetD, dictSet, divideLoop, divideStep, pyDiv, mathLog,
    addWords, addWordStep, Document.wordsList, SearchEngine.calculate_idf,
    SearchEngine.search, searchBody, postingStep, Document.get_path,
    sortByValueDesc, insertByDesc, List.isSuffixOf, List.isPrefixOf,
    Except.map, Bind.bind, Except.bind, Pure.pure, Except.pure]

/-- A query word whose normalization is not a key of the inverted index leaves
the score accumulator unchanged. -/
theorem searchBody_skip (e : SearchEngine) (out : List (Str × ℚ)) (w : Str)
    (h : dictContains e.inverted_index (clean w) = false) :
    searchBody e out w = .ok out := by
  unfold searchBody
  simp [h]
  rfl

/-- Folding the search loop over query words that all miss the inverted index
returns the accumulator unchanged, with no error. -/
theorem foldlM_searchBody_skip (e : SearchEngine) (ws : List Str) :
    ∀ out : List (Str × ℚ),
      (∀ w ∈ ws, dictContains e.inverted_index (clean w) = false) →
      ws.foldlM (searchBody e) out = .ok out := by
  induction ws with
  | nil => intro out _; rfl
  | cons w ws ih =>
    intro out h
    have hstep : (w :: ws).foldlM (searchBody e) out
        = (searchBody e out w >>= fun s => ws.foldlM (searchBody e) s) := rfl
    rw [hstep, searchBody_skip e out w (h w (List.mem_cons_self w ws))]
    exact ih out (fun x hx => h x (List.mem_cons_of_mem w hx))

/-- C8: a query that is empty, or all of whose normalized terms are absent
from the inverted index, makes `search` return the empty list with no
error. -/
theorem c8_unmatched_query_returns_empty (e : SearchEngine) (query : Str)
    (h : ∀ w ∈ pySplit query, dictContains e.inverted_index (clean w) = false) :
    e.search query = .ok [] := by
  show (List.foldlM (searchBody e) [] (pySplit query) >>=
      fun output => pure (sortByValueDesc output)) = Except.ok []
  rw [foldlM_searchBody_skip e (pySplit query) [] h]
  rfl

/-- Witness for C8: an engine whose index has the single key "b", queried
with "z", returns the empty list. -/
theorem c8_witness :
    SearchEngine.search ⟨[([98], [⟨[47, 97], [([98], 1)]⟩])], [], []⟩ [122]
      = .ok [] :=
  c8_unmatched_query_returns_empty ⟨[([98], [⟨[47, 97], [([98], 1)]⟩])], [], []⟩
    [122] (by decide)

/-- Dict membership is membership in the key list. -/
theorem dictContains_iff_mem_keys {α : Type} (d : List (Str × α)) (k : Str) :
    dictContains d k = true ↔ k ∈ d.map Prod.fst := by
  induction d with
  | nil => simp [dictContains]
  | cons p rest ih =>
    by_cases hp : p.1 = k
    · simp [dictContains, hp]
    · simp [dictContains, hp, ih, Ne.symm hp]

/-- Updating a present key leaves the key list unchanged. -/
theorem keys_dictSet_contains {α : Type} (d : List (Str × α)) (k : Str) (v : α)
    (h : dictContains d k = true) :
    (dictSet d k v).map Prod.fst = d.map Prod.fst := by
  induction d with
  | nil => simp [dictContains] at h
  | cons p rest ih =>
    by_cases hp : p.1 = k
    · simp [dictSet, hp]
    · have h' : dictContains rest k = true := by
        simpa [dictContains, hp] using h
      simp [dictSet, hp, ih h']

/-- Setting a present key returns the stored value. -/
theorem dictGetD_dictSet_self {α : Type} (d : List (Str × α)) (k : Str)
    (v dflt : α) : dictGetD (dictSet d k v) k dflt = v := by
  induction d with
  | nil => simp [dictSet, dictGetD]
  | cons p rest ih =>
    by_cases hp : p.1 = k <;> simp [dictSet, dictGetD, hp, ih]

/-- Setting one key does not change lookups of a different key. -/
theorem dictGetD_dictSet_ne {α : Type} (d : List (Str × α)) (k t : Str)
    (v dflt : α) (h : t ≠ k) :
    dictGetD (dictSet d k v) t dflt = dictGetD d t dflt := by
  induction d with
  | nil => simp [dictSet, dictGetD, Ne.symm h]
  | cons p rest ih =>
    by_cases hp : p.1 = k
    · have hpt : p.1 ≠ t := by rw [hp]; exact Ne.symm h
      simp [dictSet, dictGetD, hp, hpt, Ne.symm h]
    · by_cases hq : p.1 = t <;> simp [dictSet, dictGetD, hp, hq, ih, h]

/-- Membership after a dict update. -/
theorem dictContains_dictSet {α : Type} (d : List (Str × α)) (k t : Str)
    (v : α) :
    dictContains (dictSet d k v) t
      = (if t = k then true else dictContains d t) := by
  induction d with
  | nil =>
    by_cases ht : t = k <;> simp [dictSet, dictContains, ht, Ne.symm]
  | cons p rest ih =>
    by_cases hp : p.1 = k
    · by_cases ht : t = k
      · simp [dictSet, dictContains, hp, ht]
      · have hpt : p.1 ≠ t := by rw [hp]; exact Ne.symm ht
        simp [dictSet, dictContains, hp, ht, hpt, Ne.symm ht]
    · by_cases hq : p.1 = t
      · by_cases ht : t = k
        · exact absurd (hq.trans ht) hp
        · simp [dictSet, dictContains, hp, hq, ht]
      · simp [dictSet, dictContains, hp, hq, ih]

/-- Membership in a dict extended on the right with one fresh slot. -/
theorem dictContains_append_single {α : Type} (d : List (Str × α)) (w : Str)
    (x : α) (t : Str) :
    dictContains (d ++ [(w, x)]) t
      = (if t = w then true else dictContains d t) := by
  induction d with
  | nil => by_cases ht : t = w <;> simp [dictContains, ht, Ne.symm]
  | cons p rest ih =>
    by_cases hp : p.1 = t
    · by_cases ht : t = w <;> simp [dictContains, hp, ht]
    · simp [dictContains, hp, ih]

/-- Appending a slot for a different key does not change lookups. -/
theorem dictGetD_append_single_ne {α : Type} (d : List (Str × α)) (w : Str)
    (x : α) (t : Str) (dflt : α) (h : t ≠ w) :
    dictGetD (d ++ [(w, x)]) t dflt = dictGetD d t dflt := by
  induction d with
  | nil => simp [dictGetD, Ne.symm h]
  | cons p rest ih =>
    by_cases hp : p.1 = t <;> simp [dictGetD, hp, ih]

/-- Registering one word adds exactly that word to the index's key set. -/
theorem keys_addWordStep (doc : Document) (idx : List (Str × List Document))
    (w : Str) :
    ((addWordStep doc idx w).map Prod.fst).toFinset
      = (idx.map Prod.fst).toFinset ∪ {w} := by
  by_cases hc : dictContains idx w = true
  · have h1 : addWordStep doc idx w
        = dictSet idx w (dictGetD idx w [] ++ [doc]) := by
      unfold addWordStep
      rw [hc]
      simp
    rw [h1, keys_dictSet_contains idx w _ hc]
    have hw : w ∈ idx.map Prod.fst := (dictContains_iff_mem_keys idx w).mp hc
    rw [Finset.union_eq_left.mpr
      (Finset.singleton_subset_iff.mpr (List.mem_toFinset.mpr hw))]
  · have hcf : dictContains idx w = false := by simpa using hc
    have h1 : addWordStep doc idx w
        = dictSet (idx ++ [(w, [])]) w
            (dictGetD (idx ++ [(w, [])]) w [] ++ [doc]) := by
      unfold addWordStep
      rw [hcf]
      simp
    have hc1 : dictContains (idx ++ [(w, ([] : List Document))]) w = true := by
      rw [dictContains_append_single]
      simp
    rw [h1, keys_dictSet_contains _ w _ hc1, List.map_append]
    simp

/-- Registering all of a document's words adds exactly its word set to the
index's key set. -/
theorem keys_addWords_aux (doc : Document) (ws : List Str) :
    ∀ idx : List (Str × List Document),
      ((ws.foldl (addWordStep doc) idx).map Prod.fst).toFinset
        = (idx.map Prod.fst).toFinset ∪ ws.toFinset := by
  induction ws with
  | nil => intro idx; simp
  | cons w ws ih =>
    intro idx
    rw [List.foldl_cons, ih (addWordStep doc idx w), keys_addWordStep]
    ext x
    simp [or_assoc]
    tauto

/-- `addWords` in terms of key sets. -/
theorem keys_addWords (idx : List (Str × List Document)) (doc : Document) :
    ((addWords idx doc).map Prod.fst).toFinset
      = (idx.map Prod.fst).toFinset ∪ doc.get_words :=
  keys_addWords_aux doc doc.wordsList idx

/-- `wordsUnion` over a snoc. -/
theorem wordsUnion_append_single (docs : List Document) (d : Document) :
    wordsUnion (docs ++ [d]) = wordsUnion docs ∪ d.get_words := by
  unfold wordsUnion
  rw [List.foldl_append]
  rfl

/-- The joint invariant of the index-building fold and the document-loading
fold: starting from an index and a document list whose key set and word union
agree, the two folds stay in agreement. -/
theorem build_load_keys (path ext : Str) (entries : List (Str × Str)) :
    ∀ (idx0 : List (Str × List Document)) (docs0 : List Document),
      (idx0.map Prod.fst).toFinset = wordsUnion docs0 →
      ∀ (idx : List (Str × List Document)) (docs : List Document),
        entries.foldlM (buildStep path ext) idx0 = .ok idx →
        entries.foldlM (loadStep path ext) docs0 = .ok docs →
        (idx.map Prod.fst).toFinset = wordsUnion docs := by
  induction entries with
  | nil =>
    intro idx0 docs0 hinv idx docs hb hd
    cases hb
    cases hd
    exact hinv
  | cons entry rest ih =>
    intro idx0 docs0 hinv idx docs hb hd
    have hb' : (buildStep path ext idx0 entry >>=
        fun s => rest.foldlM (buildStep path ext) s) = .ok idx := hb
    have hd' : (loadStep path ext docs0 entry >>=
        fun s => rest.foldlM (loadStep path ext) s) = .ok docs := hd
    by_cases he : endsWith entry.1 ext = true
    · cases hdoc : docInit (osJoin path entry.1) entry.2 with
      | error err =>
        rw [show buildStep path ext idx0 entry
            = (docInit (osJoin path entry.1) entry.2 >>=
                fun doc => pure (addWords idx0 doc)) by
              unfold buildStep; rw [he]; simp] at hb'
        rw [hdoc] at hb'
        cases hb'
      | ok doc =>
        rw [show buildStep path ext idx0 entry
            = (docInit (osJoin path entry.1) entry.2 >>=
                fun doc => pure (addWords idx0 doc)) by
              unfold buildStep; rw [he]; simp] at hb'
        rw [show loadStep path ext docs0 entry
            = (docInit (osJoin path entry.1) entry.2 >>=
                fun doc => pure (docs0 ++ [doc])) by
              unfold loadStep; rw [he]; simp] at hd'
        rw [hdoc] at hb' hd'
        have hinv' : ((addWords idx0 doc).map Prod.fst).toFinset
            = wordsUnion (docs0 ++ [doc]) := by
          rw [keys_addWords, wordsUnion_append_single, hinv]
        exact ih (addWords idx0 doc) (docs0 ++ [doc]) hinv' idx docs hb' hd'
    · rw [show buildStep path ext idx0 entry = pure idx0 by
        unfold buildStep; rw [if_neg he]] at hb'
      rw [show loadStep path ext docs0 entry = pure docs0 by
        unfold loadStep; rw [if_neg he]] at hd'
      exact ih idx0 docs0 hinv idx docs hb' hd'

/-- C6: for every engine built over a directory listing, the union of
`get_words` over all the Documents loaded during construction equals the key
set of the inverted index. -/
theorem c6_words_union_eq_index_keys (path ext : Str)
    (entries : List (Str × Str)) (e : SearchEngine) (docs : List Document)
    (hb : buildEngine path ext entries = .ok e)
    (hd : loadedDocs path ext entries = .ok docs) :
    wordsUnion docs = (e.inverted_index.map Prod.fst).toFinset := by
  have hb' : (entries.foldlM (buildStep path ext) [] >>=
      fun idx => pure (⟨idx, [], path⟩ : SearchEngine)) = .ok e := hb
  cases hidx : entries.foldlM (buildStep path ext) [] with
  | error err => rw [hidx] at hb'; cases hb'
  | ok idx =>
    rw [hidx] at hb'
    have he : (⟨idx, [], path⟩ : SearchEngine) = e := by
      simpa using hb'
    rw [← he]
    exact (build_load_keys path ext entries [] [] rfl idx docs hidx hd).symm

/-- Witness for C6: one file "a" with contents "b"; the single loaded
document's word set and the index's key set are both the singleton "b". -/
theorem c6_witness :
    buildEngine [] [] [([97], [98])]
      = .ok ⟨[([98], [⟨[47, 97], [([98], 1)]⟩])], [], []⟩ ∧
    loadedDocs [] [] [([97], [98])] = .ok [⟨[47, 97], [([98], 1)]⟩] ∧
    wordsUnion [⟨[47, 97], [([98], 1)]⟩]
      = ((([([98], [(⟨[47, 97], [([98], 1)]⟩ : Document)])] :
          List (Str × List Document)).map Prod.fst)).toFinset := by
  have hb : buildEngine [] [] [([97], [98])]
      = .ok ⟨[([98], [⟨[47, 97], [([98], 1)]⟩])], [], []⟩ := by
    simp [buildEngine, buildStep, endsWith, osJoin, docInit, pySplit, splitAux,
      countLoop, countStep, clean, pyLower, isWordChar, isSpace, dictContains,
      dictGetD, dictSet, divideLoop, divideStep, pyDiv, addWords, addWordStep,
      Document.wordsList, List.isSuffixOf, List.isPrefixOf, Bind.bind,
      Except.bind, Pure.pure, Except.pure]
  have hd : loadedDocs [] [] [([97], [98])]
      = .ok [⟨[47, 97], [([98], 1)]⟩] := by
    simp [loadedDocs, loadStep, endsWith, osJoin, docInit, pySplit, splitAux,
      countLoop, countStep, clean, pyLower, isWordChar, isSpace, dictContains,
      dictGetD, dictSet, divideLoop, divideStep, pyDiv, List.isSuffixOf,
      List.isPrefixOf, Bind.bind, Except.bind, Pure.pure, Except.pure]
  exact ⟨hb, hd,
    c6_words_union_eq_index_keys [] [] [([97], [98])] _ _ hb hd⟩

/-- Registering a word preserves the invariant that every present key has a
nonempty posting list: the touched key receives a list ending in `doc`, and
other keys keep their posting lists. -/
theorem postingsNonempty_addWordStep (doc : Document)
    (idx : List (Str × List Document)) (w : Str)
    (h : postingsNonempty idx) :
    postingsNonempty (addWordStep doc idx w) := by
  intro t ht
  by_cases hc : dictContains idx w = true
  · have h1 : addWordStep doc idx w
        = dictSet idx w (dictGetD idx w [] ++ [doc]) := by
      unfold addWordStep
      rw [hc]
      simp
    rw [h1] at ht ⊢
    by_cases htw : t = w
    · subst htw
      rw [dictGetD_dictSet_self]
      simp
    · rw [dictGetD_dictSet_ne idx w t _ [] htw]
      rw [dictContains_dictSet, if_neg htw] at ht
      exact h t ht
  · have hcf : dictContains idx w = false := by simpa using hc
    have h1 : addWordStep doc idx w
        = dictSet (idx ++ [(w, [])]) w
            (dictGetD (idx ++ [(w, [])]) w [] ++ [doc]) := by
      unfold addWordStep
      rw [hcf]
      simp
    rw [h1] at ht ⊢
    by_cases htw : t = w
    · subst htw
      rw [dictGetD_dictSet_self]
      simp
    · rw [dictGetD_dictSet_ne _ w t _ [] htw,
        dictGetD_append_single_ne idx w _ t [] htw]
      rw [dictContains_dictSet, if_neg htw,
        dictContains_append_single, if_neg htw] at ht
      exact h t ht

/-- Registering all of a document's words preserves the nonempty-postings
invariant. -/
theorem postingsNonempty_addWords_aux (doc : Document) (ws : List Str) :
    ∀ idx : List (Str × List Document), postingsNonempty idx →
      postingsNonempty (ws.foldl (addWordStep doc) idx) := by
  induction ws with
  | nil => intro idx h; exact h
  | cons w ws ih =>
    intro idx h
    rw [List.foldl_cons]
    exact ih (addWordStep doc idx w) (postingsNonempty_addWordStep doc idx w h)

/-- The index-building fold preserves the nonempty-postings invariant. -/
theorem build_postingsNonempty (path ext : Str)
    (entries : List (Str × Str)) :
    ∀ idx0 : List (Str × List Document), postingsNonempty idx0 →
      ∀ idx : List (Str × List Document),
        entries.foldlM (buildStep path ext) idx0 = .ok idx →
        postingsNonempty idx := by
  induction entries with
  | nil =>
    intro idx0 h0 idx hb
    cases hb
    exact h0
  | cons entry rest ih =>
    intro idx0 h0 idx hb
    have hb' : (buildStep path ext idx0 entry >>=
        fun s => rest.foldlM (buildStep path ext) s) = .ok idx := hb
    by_cases he : endsWith entry.1 ext = true
    · cases hdoc : docInit (osJoin path entry.1) entry.2 with
      | error err =>
        rw [show buildStep path ext idx0 entry
            = (docInit (osJoin path entry.1) entry.2 >>=
                fun doc => pure (addWords idx0 doc)) by
              unfold buildStep; rw [he]; simp] at hb'
        rw [hdoc] at hb'
        cases hb'
      | ok doc =>
        rw [show buildStep path ext idx0 entry
            = (docInit (osJoin path entry.1) entry.2 >>=
                fun doc => pure (addWords idx0 doc)) by
              unfold buildStep; rw [he]; simp] at hb'
        rw [hdoc] at hb'
        exact ih (addWords idx0 doc)
          (postingsNonempty_addWords_aux doc doc.wordsList idx0 h0) idx hb'
    · rw [show buildStep path ext idx0 entry = pure idx0 by
        unfold buildStep; rw [if_neg he]] at hb'
      exact ih idx0 h0 idx hb'

/-- Every successfully built engine has an empty `files` attribute and only
nonempty posting lists. -/
theorem buildEngine_ok_shape (path ext : Str) (entries : List (Str × Str))
    (e : SearchEngine) (hb : buildEngine path ext entries = .ok e) :
    e.files = [] ∧ postingsNonempty e.inverted_index := by
  have hb' : (entries.foldlM (buildStep path ext) [] >>=
      fun idx => pure (⟨idx, [], path⟩ : SearchEngine)) = .ok e := hb
  cases hidx : entries.foldlM (buildStep path ext) [] with
  | error err => rw [hidx] at hb'; cases hb'
  | ok idx =>
    rw [hidx] at hb'
    have he : (⟨idx, [], path⟩ : SearchEngine) = e := by simpa using hb'
    rw [← he]
    refine ⟨rfl, ?_⟩
    exact build_postingsNonempty path ext entries []
      (fun t ht => by simp [dictContains] at ht) idx hidx

/-- With an empty `files` set, `_calculate_idf` of any present term with a
nonempty posting list evaluates `math.log(0 / len)` and raises the math
domain error. -/
theorem calculate_idf_error_of (e : SearchEngine) (t : Str)
    (hf : e.files = []) (hc : dictContains e.inverted_index t = true)
    (hp : dictGetD e.inverted_index t [] ≠ []) :
    e.calculate_idf t = .error .mathDomainError := by
  unfold SearchEngine.calculate_idf
  rw [hc]
  have hlen : ((dictGetD e.inverted_index t []).length : ℚ) ≠ 0 := by
    simpa using hp
  simp [hf, pyDiv, hlen, mathLog, Bind.bind, Except.bind]

/-- A posting-list iteration whose idf computation errors propagates the
error. -/
theorem postingStep_error (e : SearchEngine) (t : Str)
    (out : List (Str × ℚ)) (file : Document)
    (h : e.calculate_idf t = .error .mathDomainError) :
    postingStep e t out file = .error .mathDomainError := by
  unfold postingStep
  rw [h]
  rfl

/-- A query word that hits the index makes the whole search-loop body error
(under the always-empty `files` attribute). -/
theorem searchBody_error (e : SearchEngine) (out : List (Str × ℚ)) (w : Str)
    (hc : dictContains e.inverted_index (clean w) = true)
    (hp : dictGetD e.inverted_index (clean w) [] ≠ [])
    (hi : e.calculate_idf (clean w) = .error .mathDomainError) :
    searchBody e out w = .error .mathDomainError := by
  show (if dictContains e.inverted_index (clean w) = true then
      List.foldlM (postingStep e (clean w)) out
        (dictGetD e.inverted_index (clean w) [])
    else pure out) = .error .mathDomainError
  rw [if_pos hc]
  cases hpost : dictGetD e.inverted_index (clean w) [] with
  | nil => exact absurd hpost hp
  | cons f fs =>
    show (postingStep e (clean w) out f >>=
        fun s => fs.foldlM (postingStep e (clean w)) s) = _
    rw [postingStep_error e (clean w) out f hi]
    rfl

/-- If some query word hits the index, folding the search loop errors with the
math domain error, the earlier missing words being skipped. -/
theorem foldlM_searchBody_error (e : SearchEngine)
    (hf : e.files = []) (hpost : postingsNonempty e.inverted_index)
    (ws : List Str) :
    ∀ out : List (Str × ℚ),
      (∃ w ∈ ws, dictContains e.inverted_index (clean w) = true) →
      ws.foldlM (searchBody e) out = .error .mathDomainError := by
  induction ws with
  | nil => intro out hex; simp at hex
  | cons w ws ih =>
    intro out hex
    by_cases hw : dictContains e.inverted_index (clean w) = true
    · have herr : searchBody e out w = .error .mathDomainError :=
        searchBody_error e out w hw (hpost _ hw)
          (calculate_idf_error_of e _ hf hw (hpost _ hw))
      show (searchBody e out w >>=
          fun s => ws.foldlM (searchBody e) s) = _
      rw [herr]
      rfl
    · have hw' : dictContains e.inverted_index (clean w) = false := by
        simpa using hw
      show (searchBody e out w >>=
          fun s => ws.foldlM (searchBody e) s) = _
      rw [searchBody_skip e out w hw']
      show ws.foldlM (searchBody e) out = _
      apply ih
      rcases hex with ⟨x, hx, hcx⟩
      rcases List.mem_cons.mp hx with h1 | h2
      · exact absurd (h1 ▸ hcx) hw
      · exact ⟨x, h2, hcx⟩

/-- C10: after construction, the engine's `files` attribute is the empty set
(nothing is ever added to it: the `files.add(file)` call sits in a trailing
comment in the source); consequently `_calculate_idf` of every term present in
the inverted index evaluates the logarithm of 0 divided by the posting-list
length and raises an error instead of returning a number, and every search
whose query contains a term present in some indexed document raises rather
than returning a ranking. -/
theorem c10_files_empty_and_idf_raises (path ext : Str)
    (entries : List (Str × Str)) (e : SearchEngine)
    (hb : buildEngine path ext entries = .ok e) :
    e.files = [] ∧
    (∀ term, dictContains e.inverted_index term = true →
      e.calculate_idf term = .error .mathDomainError) ∧
    (∀ query, (∃ w ∈ pySplit query,
        dictContains e.inverted_index (clean w) = true) →
      e.search query = .error .mathDomainError) := by
  obtain ⟨hf, hp⟩ := buildEngine_ok_shape path ext entries e hb
  refine ⟨hf,
    fun term ht => calculate_idf_error_of e term hf ht (hp term ht), ?_⟩
  intro query hq
  show (List.foldlM (searchBody e) [] (pySplit query) >>=
      fun output => pure (sortByValueDesc output)) = _
  rw [foldlM_searchBody_error e hf hp (pySplit query) [] hq]
  rfl

/-- Witness for C10: one file "a" with contents "b"; the built engine has an
empty `files` set, idf of the present term "b" errors, and so does the query
"b". -/
theorem c10_witness :
    buildEngine [] [] [([97], [98])]
      = .ok ⟨[([98], [⟨[47, 97], [([98], 1)]⟩])], [], []⟩ ∧
    (⟨[([98], [⟨[47, 97], [([98], 1)]⟩])], [], []⟩ : SearchEngine).files
      = [] ∧
    SearchEngine.calculate_idf
      ⟨[([98], [⟨[47, 97], [([98], 1)]⟩])], [], []⟩ [98]
      = .error .mathDomainError ∧
    SearchEngine.search ⟨[([98], [⟨[47, 97], [([98], 1)]⟩])], [], []⟩ [98]
      = .error .mathDomainError := by
  have hb : buildEngine [] [] [([97], [98])]
      = .ok ⟨[([98], [⟨[47, 97], [([98], 1)]⟩])], [], []⟩ := by
    simp [buildEngine, buildStep, endsWith, osJoin, docInit, pySplit, splitAux,
      countLoop, countStep, clean, pyLower, isWordChar, isSpace, dictContains,
      dictGetD, dictSet, divideLoop, divideStep, pyDiv, addWords, addWordStep,
      Document.wordsList, List.isSuffixOf, List.isPrefixOf, Bind.bind,
      Except.bind, Pure.pure, Except.pure]
  obtain ⟨h1, h2, h3⟩ :=
    c10_files_empty_and_idf_raises [] [] [([97], [98])] _ hb
  exact ⟨hb, h1, h2 [98] (by decide), h3 [98] (by decide)⟩

end SearchPy
